import Mathlib

/-!
# toDoList: request validation and the archive transition

A verification development for `src/validator/activity/completeValidator.js`
(the Joi validation chain for the `id` path parameter and the `content-type`
header) and for the archive operation exercised by
`test/functional/ArchiveActivityControllerTest.js`.

The regular expression literal of the validator is embedded as a syntax tree
with a backtracking matcher; the Joi schemas are embedded as functions on the
request that return the Joi error messages.
-/

set_option autoImplicit false

namespace ToDoList

/-! ## Regular expressions (the fragment used by the validator) -/

/-- Syntax of the JavaScript regular expressions that occur in the validator. -/
inductive Regex where
  /-- a literal character, such as `0` -/
  | char (c : Char)
  /-- the class `\d` (without the `u` flag: the ASCII digits) -/
  | digit
  /-- a character range `[lo-hi]` -/
  | range (lo hi : Char)
  /-- concatenation -/
  | seq (a b : Regex)
  /-- the quantifier `+` -/
  | plus (a : Regex)
  /-- the negative lookahead `(?!a)` -/
  | negLookahead (a : Regex)
  /-- the assertion `^` (no `m` flag: start of input) -/
  | bol
  /-- the assertion `$` (no `m` flag: end of input) -/
  | eol
  deriving DecidableEq

/-- The text of a regular expression, as `RegExp.prototype.source` gives it. -/
def Regex.source : Regex → String
  | .char c => String.singleton c
  | .digit => "\\d"
  | .range lo hi => "[" ++ String.singleton lo ++ "-" ++ String.singleton hi ++ "]"
  | .seq a b => a.source ++ b.source
  | .plus a => a.source ++ "+"
  | .negLookahead a => "(?!" ++ a.source ++ ")"
  | .bol => "^"
  | .eol => "$"

/-- The class `\d`: code points 48 to 57. -/
def isDigit (c : Char) : Bool := 48 ≤ c.toNat && c.toNat ≤ 57

/-- Membership in a range `[lo-hi]`, by code point. -/
def inRange (lo hi c : Char) : Bool := lo.toNat ≤ c.toNat && c.toNat ≤ hi.toNat

/-- Match one character satisfying `p`: the remaining input when it succeeds. -/
def stepChar (p : Char → Bool) : List Char → List (List Char)
  | [] => []
  | c :: t => if p c then [t] else []

/-- One or more iterations of the matcher `f`, greedy: the remaining inputs in
backtracking order. An iteration that consumed nothing is not repeated (the
empty check of the quantifier); `fuel` bounds the number of iterations and the
input length plus one always suffices, as each repeated iteration consumes a
character. -/
def plusLoop (f : List Char → List (List Char)) : Nat → List Char → List (List Char)
  | 0, _ => []
  | fuel + 1, s =>
    (f s).flatMap (fun s' => (if s'.length < s.length then plusLoop f fuel s' else []) ++ [s'])

/-- Backtracking matcher: `r.run n s` lists the inputs that may remain after `r`
matched a prefix of `s`, where `s` is a suffix of an input of length `n`. -/
def Regex.run (n : Nat) : Regex → List Char → List (List Char)
  | .char c, s => stepChar (fun d => d == c) s
  | .digit, s => stepChar isDigit s
  | .range lo hi, s => stepChar (inRange lo hi) s
  | .seq a b, s => (a.run n s).flatMap (b.run n)
  | .plus a, s => plusLoop (a.run n) (s.length + 1) s
  | .negLookahead a, s => if (a.run n s).isEmpty then [s] else []
  | .bol, s => if s.length = n then [s] else []
  | .eol, s => if s.isEmpty then [s] else []

/-- Try a match at the start of `s` and then at every later position. -/
def Regex.searchFrom (r : Regex) (n : Nat) : List Char → Bool
  | [] => !(r.run n []).isEmpty
  | c :: t => !(r.run n (c :: t)).isEmpty || r.searchFrom n t

/-- The method `RegExp.prototype.test` (no `g` or `y` flag): is there a match
anywhere in the string. -/
def Regex.test (r : Regex) (s : String) : Bool :=
  r.searchFrom s.length s.toList

/-- The literal `/^(?!0+[1-9]+)\d+$/` of `completeValidator.js`, line 9. -/
def idPattern : Regex :=
  .seq .bol
    (.seq (.negLookahead (.seq (.plus (.char '0')) (.plus (.range '1' '9'))))
      (.seq (.plus .digit) .eol))

/-! ## Joi schemas and the validation chain -/

/-- A Joi `ValidationError`: one message for each failed rule. -/
structure ValidationError where
  details : List String
  deriving DecidableEq

/-- The `name` property of a Joi validation error. -/
def ValidationError.name (_e : ValidationError) : String := "ValidationError"

/-- The `message` property: the detail messages joined by `. `. -/
def ValidationError.message (e : ValidationError) : String :=
  ". ".intercalate e.details

/-- The method `Error.prototype.toString`: name, colon, message. -/
def ValidationError.toString (e : ValidationError) : String :=
  e.name ++ ": " ++ e.message

/-- The parts of the request that express-joi-validation can validate. -/
inductive Container where
  | params
  | headers
  deriving DecidableEq

/-- What a validator hands to `next` on failure (option `passError`). -/
structure MiddlewareError where
  type : Container
  error : ValidationError
  deriving DecidableEq

/-- The request as the validators see it: the route parameters and the headers
(Node gives header names in lower case), as key and value pairs. -/
structure Request where
  params : List (String × String)
  headers : List (String × String)
  deriving DecidableEq

/-- Property access on an object given as key and value pairs. -/
def getKey (o : List (String × String)) (k : String) : Option String :=
  (o.find? (fun kv => kv.1 == k)).map Prod.snd

/-- Message of `any.required`. -/
def msgRequired (label : String) : String := "\"" ++ label ++ "\" is required"

/-- Message of `string.empty`. -/
def msgEmpty (label : String) : String := "\"" ++ label ++ "\" is not allowed to be empty"

/-- Message of `object.unknown`. -/
def msgUnknown (label : String) : String := "\"" ++ label ++ "\" is not allowed"

/-- Message of `any.only` with a single allowed value. -/
def msgOnly (label valid : String) : String := "\"" ++ label ++ "\" must be [" ++ valid ++ "]"

/-- Message of `string.pattern.base`. -/
def msgPattern (label value : String) (r : Regex) : String :=
  "\"" ++ label ++ "\" with value \"" ++ value ++
    "\" fails to match the required pattern: /" ++ r.source ++ "/"

/-- The schema `Joi.string().regex(r).required()` under the key `label`: the
messages of the rules that fail. -/
def stringRegexRequired (label : String) (r : Regex) : Option String → List String
  | none => [msgRequired label]
  | some v =>
    if v = "" then [msgEmpty label]
    else if r.test v then []
    else [msgPattern label v r]

/-- The schema `Joi.string().valid(allowed).required()` under the key `label`.
The comparison with the allowed value is exact: the schema has no
`insensitive()`. -/
def stringValidRequired (label allowed : String) : Option String → List String
  | none => [msgRequired label]
  | some v =>
    if v = allowed then []
    else if v = "" then [msgOnly label allowed, msgEmpty label]
    else [msgOnly label allowed]

/-- The messages of `Joi.object().keys({"id": ...})` on the route parameters:
the key `id` first, then every key the schema does not know. -/
def paramsErrors (params : List (String × String)) : List String :=
  stringRegexRequired "id" idPattern (getKey params "id") ++
    ((params.filter (fun kv => kv.1 != "id")).map (fun kv => msgUnknown kv.1))

/-- The messages of `Joi.object().keys({"content-type": ...}).unknown()` on
the headers: other keys are allowed. -/
def headersErrors (headers : List (String × String)) : List String :=
  stringValidRequired "content-type" "application/json" (getKey headers "content-type")

/-- The middleware `validator.params(...)` of `completeValidator.js`, lines 7-11. -/
def validateParams (req : Request) : Except MiddlewareError Request :=
  match paramsErrors req.params with
  | [] => .ok req
  | e :: es => .error ⟨.params, ⟨e :: es⟩⟩

/-- The middleware `validator.headers(...)` of `completeValidator.js`, lines 12-17. -/
def validateHeaders (req : Request) : Except MiddlewareError Request :=
  match headersErrors req.headers with
  | [] => .ok req
  | e :: es => .error ⟨.headers, ⟨e :: es⟩⟩

/-- The exported array: the parameter validator, then the header validator. -/
def completeValidator : List (Request → Except MiddlewareError Request) :=
  [validateParams, validateHeaders]

/-- Run a list of middleware in order; the first error skips the rest. -/
def runChain : List (Request → Except MiddlewareError Request) → Request →
    Except MiddlewareError Request
  | [], req => .ok req
  | m :: ms, req =>
    match m req with
    | .ok req' => runChain ms req'
    | .error e => .error e

/-- The route: the validation chain, then the later stage `later`; an error of
the chain goes to the error handler `onError` and `later` does not run. -/
def handle {ρ : Type} (later : Request → ρ) (onError : MiddlewareError → ρ)
    (req : Request) : ρ :=
  match runChain completeValidator req with
  | .ok req' => later req'
  | .error e => onError e

/-! ## Words of the claims about identifiers and header values -/

/-- Stated from the claim: a hexadecimal character, one of 0-9, a-f, A-F. -/
def isHexChar (c : Char) : Bool :=
  inRange '0' '9' c || inRange 'a' 'f' c || inRange 'A' 'F' c

/-- Stated from the claim: a 24-character hexadecimal string, the shape
`/^[a-fA-F0-9]{24}$/` that the functional test names in its expected message. -/
def isHexId (s : String) : Bool :=
  s.length == 24 && s.toList.all isHexChar

/-- Stated from the claim: an ASCII decimal digit. -/
def isAsciiDigit (c : Char) : Bool :=
  c ∈ ['0', '1', '2', '3', '4', '5', '6', '7', '8', '9']

/-- Stated from the claim: a non-empty string of ASCII decimal digits that
either does not begin with `0` or consists only of `0` characters. -/
def isPlainNumber (s : String) : Prop :=
  s.toList ≠ [] ∧ (∀ c ∈ s.toList, isAsciiDigit c = true) ∧
    (s.toList.head? ≠ some '0' ∨ ∀ c ∈ s.toList, c = '0')

/-- Stated from the claim: equality up to the case of ASCII letters. -/
def eqIgnoreCase (a b : String) : Bool :=
  a.toList.map Char.toLower == b.toList.map Char.toLower

/-- The message the functional test expects for the id `v` (test, line 40). -/
def expectedIdMessage (v : String) : String :=
  "ValidationError: \"id\" with value \"" ++ v ++
    "\" fails to match the required pattern: /^[a-fA-F0-9]\x7b24\x7d$/"

/-! ## Auxiliary functions for the analysis of the `id` pattern -/

/-- Does the input begin with a character of `[1-9]`. -/
def headNonZero : List Char → Bool
  | [] => false
  | c :: _ => inRange '1' '9' c

/-- Does the input begin with one or more `0` followed by a character of `[1-9]`. -/
def zerosThenNonZero : List Char → Bool
  | [] => false
  | c :: t => c == '0' && (headNonZero t || zerosThenNonZero t)

/-! ## The archive operation -/

/-- The closed set of activity states (`activityStatus` of `const.js`, as the
functional test uses it). -/
inductive Status where
  | open_
  | completed
  | archived
  | deleted
  deriving DecidableEq

/-- An activity record. -/
structure Activity where
  id : String
  name : String
  description : String
  status : Status
  ownerId : String
  deriving DecidableEq

/-- The view of an activity that a successful archive returns. -/
structure ActivityView where
  id : String
  name : String
  description : String
  status : Status
  deriving DecidableEq

/-- The activity store: the persisted records. -/
abbrev Store := List Activity

/-- The ways `archive` fails. -/
inductive ArchiveError where
  /-- unknown resource (HTTP 404), with its numeric code -/
  | notFound (message : String) (code : Nat)
  /-- disallowed state transition (HTTP 403) -/
  | forbidden (message : String)
  deriving DecidableEq

/-- Modelled from the spec: the store collaborator's `findById(id)`, whose
code is not in the sources; the first record with that id, if any. -/
def findById (st : Store) (id : String) : Option Activity :=
  st.find? (fun a => a.id == id)

/-- Modelled from the spec: the store collaborator's `update(id, patch)` for
a patch of the status, whose code is not in the sources; it rewrites the
status of the record `findById` returns and nothing else. -/
def update : Store → String → Status → Store
  | [], _, _ => []
  | a :: rest, id, status =>
    if a.id == id then { a with status := status } :: rest
    else a :: update rest id status

/-- The view of an activity: its id, name, description and status. -/
def Activity.view (a : Activity) : ActivityView :=
  ⟨a.id, a.name, a.description, a.status⟩

/-- Modelled from the spec: the operation `archive(userId, activityId)` of the
Activity Lifecycle Manager (section 4.2), whose controller and service are not
in the sources (only their functional test is). Step 1 looks the activity up
and fails with `NotFound` when it is absent; step 3 is the state guard: `open`
and `deleted` fail with `Forbidden`, `completed` is persisted as `archived`,
`archived` is returned unchanged. Step 2 (ownership) is left to a collaborator
by the spec, which gives it no outcome of its own, so the operation does not
inspect `userId`. The result is the store after the call and the outcome. -/
def archive (st : Store) (_userId id : String) : Store × Except ArchiveError ActivityView :=
  match findById st id with
  | none => (st, .error (.notFound "Activity not found" 200100))
  | some a =>
    match a.status with
    | .open_ => (st, .error (.forbidden "Can not archive a not completed activity"))
    | .deleted => (st, .error (.forbidden "Can not archive a deleted activity"))
    | .completed => (update st id .archived, .ok { a with status := .archived }.view)
    | .archived => (st, .ok a.view)

/-! ## The `id` pattern: lemmas -/

theorem char_eq_of_toNat {c d : Char} (h : c.toNat = d.toNat) : c = d := by
  apply Char.ext
  apply UInt32.ext
  exact h

theorem isDigit_cases {c : Char} (h : isDigit c = true) :
    (c = '0' ∧ inRange '1' '9' c = false) ∨ (c ≠ '0' ∧ inRange '1' '9' c = true) := by
  simp only [isDigit, Bool.and_eq_true, decide_eq_true_eq] at h
  by_cases h0 : c.toNat = 48
  · left
    have : c = '0' := char_eq_of_toNat (by simpa using h0)
    subst this
    exact ⟨rfl, by decide⟩
  · right
    refine ⟨fun hc => h0 (by subst hc; rfl), ?_⟩
    have h1 : ('1' : Char).toNat = 49 := rfl
    have h9 : ('9' : Char).toNat = 57 := rfl
    simp only [inRange, h1, h9, Bool.and_eq_true, decide_eq_true_eq]
    omega

theorem plusLoop_stepChar_nil (p : Char → Bool) (fuel : Nat) :
    plusLoop (stepChar p) fuel [] = [] := by
  cases fuel <;> simp [plusLoop, stepChar]

theorem plusLoop_stepChar_cons (p : Char → Bool) (fuel : Nat) (c : Char) (t : List Char) :
    plusLoop (stepChar p) (fuel + 1) (c :: t) =
      if p c then plusLoop (stepChar p) fuel t ++ [t] else [] := by
  by_cases hp : p c <;> simp [plusLoop, stepChar, hp]

theorem nil_mem_plusLoop (p : Char → Bool) (s : List Char) (fuel : Nat)
    (hf : s.length ≤ fuel) :
    [] ∈ plusLoop (stepChar p) fuel s ↔ s ≠ [] ∧ ∀ c ∈ s, p c = true := by
  induction s generalizing fuel with
  | nil => simp [plusLoop_stepChar_nil]
  | cons c t ih =>
    cases fuel with
    | zero => simp at hf
    | succ f =>
      have hf' : t.length ≤ f := by simpa using hf
      rw [plusLoop_stepChar_cons]
      by_cases hp : p c = true
      · simp only [hp, if_true, List.mem_append, List.mem_singleton, ih f hf']
        constructor
        · rintro (⟨_, h⟩ | h)
          · exact ⟨by simp, by simpa [hp] using h⟩
          · subst h; exact ⟨by simp, by simp [hp]⟩
        · rintro ⟨_, h⟩
          by_cases ht : t = []
          · right; exact ht.symm
          · left; exact ⟨ht, fun d hd => h d (List.mem_cons_of_mem _ hd)⟩
      · simp [hp]


theorem plusLoop_range_isEmpty (p : Char → Bool) (t : List Char) (fuel : Nat) :
    (plusLoop (stepChar p) (fuel + 1) t).isEmpty = !(match t with | [] => false | c :: _ => p c) := by
  cases t with
  | nil => simp [plusLoop_stepChar_nil]
  | cons c u =>
    rw [plusLoop_stepChar_cons]
    by_cases hp : p c = true <;> simp [hp]

theorem run_plus_range_isEmpty (n : Nat) (t : List Char) :
    ((Regex.plus (.range '1' '9')).run n t).isEmpty = !headNonZero t := by
  have h : (Regex.plus (.range '1' '9')).run n t
      = plusLoop (stepChar (inRange '1' '9')) (t.length + 1) t := by
    simp only [Regex.run]
  rw [h, plusLoop_range_isEmpty]
  cases t <;> rfl

theorem flatMap_isEmpty_false {α β : Type} (l : List α) (f : α → List β) :
    (l.flatMap f).isEmpty = false ↔ ∃ x ∈ l, (f x).isEmpty = false := by
  induction l with
  | nil => simp
  | cons a l ih =>
    simp only [List.flatMap_cons, List.mem_cons, exists_eq_or_imp, ← ih]
    cases h : f a <;> simp

theorem zeros_lookahead (s : List Char) (fuel : Nat) (hf : s.length ≤ fuel) :
    (∃ t ∈ plusLoop (stepChar (fun d => d == '0')) fuel s, headNonZero t = true)
      ↔ zerosThenNonZero s = true := by
  induction s generalizing fuel with
  | nil => simp [plusLoop_stepChar_nil, zerosThenNonZero]
  | cons c t ih =>
    cases fuel with
    | zero => simp at hf
    | succ f =>
      have hf' : t.length ≤ f := by simpa using hf
      rw [plusLoop_stepChar_cons]
      by_cases hc : (c == '0') = true
      · simp only [hc, if_true, List.mem_append, List.mem_singleton, zerosThenNonZero,
          Bool.true_and, Bool.or_eq_true, ← ih f hf']
        constructor
        · rintro ⟨u, hu | hu, hz⟩
          · exact Or.inr ⟨u, hu, hz⟩
          · subst hu; exact Or.inl hz
        · rintro (h | ⟨u, hu, hz⟩)
          · exact ⟨t, Or.inr rfl, h⟩
          · exact ⟨u, Or.inl hu, hz⟩
      · simp [hc, zerosThenNonZero]

theorem lookahead_isEmpty (n : Nat) (s : List Char) :
    ((Regex.seq (.plus (.char '0')) (.plus (.range '1' '9'))).run n s).isEmpty
      = !zerosThenNonZero s := by
  have h : (Regex.seq (.plus (.char '0')) (.plus (.range '1' '9'))).run n s
      = (plusLoop (stepChar (fun d => d == '0')) (s.length + 1) s).flatMap
          ((Regex.plus (.range '1' '9')).run n) := by
    simp only [Regex.run]
  rw [h]
  cases hz : zerosThenNonZero s with
  | true =>
    rw [Bool.not_true, flatMap_isEmpty_false]
    obtain ⟨t, ht, hn⟩ := (zeros_lookahead s (s.length + 1) (Nat.le_succ _)).mpr hz
    exact ⟨t, ht, by rw [run_plus_range_isEmpty, hn]; rfl⟩
  | false =>
    rw [Bool.not_false]
    by_contra hne
    have hne' : ((plusLoop (stepChar (fun d => d == '0')) (s.length + 1) s).flatMap
          ((Regex.plus (.range '1' '9')).run n)).isEmpty = false := by
      simpa using hne
    rw [flatMap_isEmpty_false] at hne'
    obtain ⟨t, ht, hn⟩ := hne'
    rw [run_plus_range_isEmpty] at hn
    have : zerosThenNonZero s = true :=
      (zeros_lookahead s (s.length + 1) (Nat.le_succ _)).mp ⟨t, ht, by simpa using hn⟩
    rw [hz] at this
    exact Bool.noConfusion this


theorem run_seq (n : Nat) (a b : Regex) (s : List Char) :
    (Regex.seq a b).run n s = (a.run n s).flatMap (b.run n) := by
  simp only [Regex.run]

theorem run_negLookahead (n : Nat) (a : Regex) (s : List Char) :
    (Regex.negLookahead a).run n s = if (a.run n s).isEmpty then [s] else [] := by
  simp only [Regex.run]

theorem zerosThenNonZero_digits (t : List Char) (hd : ∀ c ∈ t, isDigit c = true) :
    (headNonZero t || zerosThenNonZero t) = true ↔ ¬ (∀ c ∈ t, c = '0') := by
  induction t with
  | nil => simp [headNonZero, zerosThenNonZero]
  | cons d u ih =>
    have hu : ∀ c ∈ u, isDigit c = true := fun c hc => hd c (List.mem_cons_of_mem _ hc)
    rcases isDigit_cases (hd d (List.mem_cons_self _ _)) with ⟨h0, hr⟩ | ⟨h0, hr⟩
    · subst h0
      have e : (headNonZero ('0' :: u) || zerosThenNonZero ('0' :: u))
          = (headNonZero u || zerosThenNonZero u) := by
        show (inRange '1' '9' '0' || ('0' == '0' && (headNonZero u || zerosThenNonZero u))) = _
        rw [hr]
        simp
      rw [e, ih hu]
      simp
    · simp [headNonZero, hr, h0]

theorem searchFrom_bol_short (r : Regex) (n : Nat) (t : List Char) (h : t.length < n) :
    (Regex.seq .bol r).searchFrom n t = false := by
  induction t with
  | nil =>
    have : ¬ (0 = n) := by simp at h; omega
    simp [Regex.searchFrom, Regex.run, this]
  | cons c u ih =>
    have h1 : ¬ (u.length + 1 = n) := by simp at h; omega
    have h2 : u.length < n := by simp at h; omega
    simp [Regex.searchFrom, Regex.run, h1, ih h2]

theorem searchFrom_bol (r : Regex) (s : List Char) :
    (Regex.seq .bol r).searchFrom s.length s = !(r.run s.length s).isEmpty := by
  cases s with
  | nil => simp [Regex.searchFrom, Regex.run]
  | cons c u =>
    simp [Regex.searchFrom, Regex.run, searchFrom_bol_short r (u.length + 1) u (Nat.lt_succ_self _)]

theorem digits_eol_isEmpty (n : Nat) (s : List Char) :
    ((Regex.seq (.plus .digit) .eol).run n s).isEmpty = false
      ↔ s ≠ [] ∧ ∀ c ∈ s, isDigit c = true := by
  have h : (Regex.seq (.plus .digit) .eol).run n s
      = (plusLoop (stepChar isDigit) (s.length + 1) s).flatMap
          (fun t => if t.isEmpty then [t] else []) := by
    simp only [Regex.run]
  rw [h, flatMap_isEmpty_false, ← nil_mem_plusLoop isDigit s (s.length + 1) (Nat.le_succ _)]
  constructor
  · rintro ⟨t, ht, he⟩
    cases t with
    | nil => exact ht
    | cons a b => simp at he
  · intro hm
    exact ⟨[], hm, by simp⟩

/-- The language of the `id` pattern, on lists of characters. -/
theorem idPattern_searchFrom (s : List Char) :
    idPattern.searchFrom s.length s = true ↔
      s ≠ [] ∧ (∀ c ∈ s, isDigit c = true) ∧ (s.head? ≠ some '0' ∨ ∀ c ∈ s, c = '0') := by
  unfold idPattern
  rw [searchFrom_bol]
  have h : (Regex.seq (.negLookahead (.seq (.plus (.char '0')) (.plus (.range '1' '9'))))
        (.seq (.plus .digit) .eol)).run s.length s
      = if zerosThenNonZero s then []
        else (Regex.seq (.plus .digit) .eol).run s.length s := by
    rw [run_seq, run_negLookahead, lookahead_isEmpty]
    cases zerosThenNonZero s <;> simp
  rw [h]
  cases hz : zerosThenNonZero s with
  | true =>
    simp only [if_true, List.isEmpty_nil, Bool.not_true, Bool.false_eq_true, false_iff]
    rintro ⟨hne, hd, hh⟩
    cases s with
    | nil => exact hne rfl
    | cons c t =>
      simp only [zerosThenNonZero, Bool.and_eq_true, beq_iff_eq] at hz
      obtain ⟨hc, hz⟩ := hz
      have ht := (zerosThenNonZero_digits t (fun d hd' => hd d (List.mem_cons_of_mem _ hd'))).mp hz
      rcases hh with hh | hh
      · exact hh (by simp [hc])
      · exact ht (fun d hd' => hh d (List.mem_cons_of_mem _ hd'))
  | false =>
    simp only [Bool.false_eq_true, if_false, Bool.not_eq_true', digits_eol_isEmpty]
    constructor
    · rintro ⟨hne, hd⟩
      refine ⟨hne, hd, ?_⟩
      cases s with
      | nil => exact absurd rfl hne
      | cons c t =>
        by_cases hc : c = '0'
        · right
          simp only [zerosThenNonZero, hc, beq_self_eq_true, Bool.true_and] at hz
          have ht := (zerosThenNonZero_digits t
            (fun d hd' => hd d (List.mem_cons_of_mem _ hd'))).not.mp (by simp [hz])
          simp only [not_not] at ht
          intro d hd'
          rcases List.mem_cons.mp hd' with h | h
          · rw [h, hc]
          · exact ht d h
        · left
          simp [hc]
    · rintro ⟨hne, hd, _⟩
      exact ⟨hne, hd⟩

/-! ## The `id` pattern: its language (C10) -/

theorem isDigit_iff_isAsciiDigit (c : Char) : isDigit c = true ↔ isAsciiDigit c = true := by
  constructor
  · intro h
    simp only [isDigit, Bool.and_eq_true, decide_eq_true_eq] at h
    have hc : c.toNat = 48 ∨ c.toNat = 49 ∨ c.toNat = 50 ∨ c.toNat = 51 ∨ c.toNat = 52 ∨
        c.toNat = 53 ∨ c.toNat = 54 ∨ c.toNat = 55 ∨ c.toNat = 56 ∨ c.toNat = 57 := by omega
    rcases hc with h | h | h | h | h | h | h | h | h | h
    · rw [@char_eq_of_toNat c '0' h]; decide
    · rw [@char_eq_of_toNat c '1' h]; decide
    · rw [@char_eq_of_toNat c '2' h]; decide
    · rw [@char_eq_of_toNat c '3' h]; decide
    · rw [@char_eq_of_toNat c '4' h]; decide
    · rw [@char_eq_of_toNat c '5' h]; decide
    · rw [@char_eq_of_toNat c '6' h]; decide
    · rw [@char_eq_of_toNat c '7' h]; decide
    · rw [@char_eq_of_toNat c '8' h]; decide
    · rw [@char_eq_of_toNat c '9' h]; decide
  · intro h
    simp only [isAsciiDigit, List.mem_cons, List.mem_singleton, decide_eq_true_eq] at h
    simp only [List.not_mem_nil, or_false] at h
    rcases h with h | h | h | h | h | h | h | h | h | h <;> subst h <;> decide

theorem test_iff_isPlainNumber (s : String) : idPattern.test s = true ↔ isPlainNumber s := by
  unfold Regex.test isPlainNumber
  have hl : s.length = s.toList.length := rfl
  rw [hl, idPattern_searchFrom]
  simp only [isDigit_iff_isAsciiDigit]

/-- C10: the pattern `/^(?!0+[1-9]+)\d+$/` of the validator matches exactly the
non-empty strings of ASCII decimal digits that do not begin with `0` or
consist only of `0`, and the `id` schema reports no error exactly on those;
`01` and `0090` are rejected, `0`, `00` and `000` are accepted, the empty
string and a string with a character that is not a digit are rejected. -/
theorem idPattern_accepts_exactly :
    (∀ s : String, idPattern.test s = true ↔ isPlainNumber s) ∧
    (∀ s : String, stringRegexRequired "id" idPattern (some s) = [] ↔ isPlainNumber s) ∧
    (∀ s : String, (∃ c ∈ s.toList, isAsciiDigit c = false) → idPattern.test s = false) ∧
    idPattern.source = "^(?!0+[1-9]+)\\d+$" ∧
    idPattern.test "01" = false ∧ idPattern.test "0090" = false ∧
    idPattern.test "0" = true ∧ idPattern.test "00" = true ∧ idPattern.test "000" = true ∧
    idPattern.test "" = false := by
  refine ⟨test_iff_isPlainNumber, ?_, ?_, by decide, by decide, by decide, by decide,
    by decide, by decide, by decide⟩
  · intro s
    rw [← test_iff_isPlainNumber]
    unfold stringRegexRequired
    by_cases he : s = ""
    · subst he
      simp only [if_true]
      constructor
      · intro h; simp at h
      · intro h; revert h; decide
    · by_cases ht : idPattern.test s = true <;> simp [he, ht]
  · rintro s ⟨c, hc, hd⟩
    cases ht : idPattern.test s with
    | false => rfl
    | true =>
      have := ((test_iff_isPlainNumber s).mp ht).2.1 c hc
      rw [hd] at this
      exact Bool.noConfusion this

/-- C10 (witness): the string `42a` has a character that is not a digit and
is rejected. -/
theorem idPattern_accepts_exactly_witness : idPattern.test "42a" = false :=
  idPattern_accepts_exactly.2.2.1 "42a" ⟨'a', by decide, by decide⟩

/-! ## The parameter and header validators (C5, C6, C7, C8) -/

/-- C5: the 24-character hexadecimal id `507f1f77bcf86cd799439011` is rejected
by the `id` parameter validator, with the pattern error, although the request
carries the JSON content type: the pattern of the code admits digits only. -/
theorem hex_id_rejected :
    isHexId "507f1f77bcf86cd799439011" = true ∧
    validateParams ⟨[("id", "507f1f77bcf86cd799439011")], [("content-type", "application/json")]⟩
      = .error ⟨.params, ⟨["\"id\" with value \"507f1f77bcf86cd799439011\" fails to match the required pattern: /^(?!0+[1-9]+)\\d+$/"]⟩⟩ :=
  ⟨by decide, rfl⟩

/-- C6: for the id `IdNonValido` of the functional test the validator's error
reads with the pattern `/^(?!0+[1-9]+)\d+$/`, which is not the message the
test expects; and the id `123`, which is not a 24-character hexadecimal
string, passes the validator without an error. -/
theorem invalid_id_message_differs :
    (∃ e, validateParams ⟨[("id", "IdNonValido")], []⟩ = .error e ∧
      e.error.toString = "ValidationError: \"id\" with value \"IdNonValido\" fails to match the required pattern: /^(?!0+[1-9]+)\\d+$/" ∧
      e.error.toString ≠ expectedIdMessage "IdNonValido") ∧
    isHexId "123" = false ∧
    validateParams ⟨[("id", "123")], []⟩ = .ok ⟨[("id", "123")], []⟩ := by
  exact ⟨⟨_, rfl, by decide, by decide⟩, by decide, rfl⟩

theorem getKey_some_of_ok (req : Request) (r : Request) (h : validateHeaders req = .ok r) :
    getKey req.headers "content-type" = some "application/json" := by
  unfold validateHeaders headersErrors stringValidRequired at h
  cases hk : getKey req.headers "content-type" with
  | none => rw [hk] at h; simp at h
  | some v =>
    rw [hk] at h
    by_cases hv : v = "application/json"
    · rw [hv]
    · by_cases he : v = "" <;> simp [hv, he] at h

theorem validateHeaders_of_json (req : Request)
    (h : getKey req.headers "content-type" = some "application/json") :
    validateHeaders req = .ok req := by
  unfold validateHeaders headersErrors stringValidRequired
  rw [h]
  simp

/-- C7 (counterexample): the value `Application/JSON` equals
`application/json` up to letter case and the header validator rejects it. -/
theorem content_type_case_rejected :
    eqIgnoreCase "Application/JSON" "application/json" = true ∧
    validateHeaders ⟨[], [("content-type", "Application/JSON")]⟩
      = .error ⟨.headers, ⟨["\"content-type\" must be [application/json]"]⟩⟩ :=
  ⟨by decide, rfl⟩

/-- C7 (amended): the header validator compares the `content-type` value with
`application/json` exactly: validation passes if and only if the value is
the string `application/json`, so a value that differs from it, be it only in
letter case, is rejected. -/
theorem content_type_exact :
    (∀ req : Request, (∃ r, validateHeaders req = .ok r) ↔
      getKey req.headers "content-type" = some "application/json") ∧
    (∀ (req : Request) (v : String), getKey req.headers "content-type" = some v →
      v ≠ "application/json" → ∃ e, validateHeaders req = .error e ∧ e.type = .headers) := by
  refine ⟨fun req => ⟨fun ⟨r, hr⟩ => getKey_some_of_ok req r hr,
    fun h => ⟨req, validateHeaders_of_json req h⟩⟩, ?_⟩
  intro req v hk hv
  unfold validateHeaders headersErrors stringValidRequired
  rw [hk]
  by_cases he : v = "" <;> simp [hv, he]

/-- C7 (witness): the amended statement at the value `Application/JSON`. -/
theorem content_type_exact_witness :
    ∃ e, validateHeaders ⟨[], [("content-type", "Application/JSON")]⟩ = .error e ∧
      e.type = .headers :=
  content_type_exact.2 ⟨[], [("content-type", "Application/JSON")]⟩ "Application/JSON"
    (by decide) (by decide)

/-- C8: the verdict of the header validator depends only on the `content-type`
header: a request whose `content-type` is `application/json` passes whatever
its other headers are, a request with no `content-type` entry fails with a
ValidationError (the key is required), and two requests with the same
`content-type` entry get the same verdict. -/
theorem headers_only_content_type :
    (∀ req : Request, getKey req.headers "content-type" = some "application/json" →
      validateHeaders req = .ok req) ∧
    (∀ req : Request, getKey req.headers "content-type" = none →
      ∃ e, validateHeaders req = .error e ∧ e.type = .headers ∧
        e.error.name = "ValidationError" ∧
        e.error.message = "\"content-type\" is required") ∧
    (∀ req req' : Request,
      getKey req.headers "content-type" = getKey req'.headers "content-type" →
      (validateHeaders req).toBool = (validateHeaders req').toBool ∧
      (∀ e e', validateHeaders req = .error e → validateHeaders req' = .error e' → e = e')) := by
  refine ⟨validateHeaders_of_json, ?_, ?_⟩
  · intro req h
    refine ⟨⟨.headers, ⟨[msgRequired "content-type"]⟩⟩, ?_, rfl, rfl, by decide⟩
    unfold validateHeaders headersErrors stringValidRequired
    rw [h]
  · intro req req' h
    unfold validateHeaders headersErrors
    rw [h]
    cases stringValidRequired "content-type" "application/json"
        (getKey req'.headers "content-type") with
    | nil => simp [Except.toBool]
    | cons a l =>
      refine ⟨rfl, ?_⟩
      intro e e' h1 h2
      simp only [Except.error.injEq] at h1 h2
      rw [← h1, ← h2]

/-- C8 (witness): a request with the JSON content type among unknown headers
passes, and a request without a `content-type` entry fails. -/
theorem headers_only_content_type_witness :
    validateHeaders ⟨[("id", "7")], [("authorization", "Bearer t"),
        ("content-type", "application/json"), ("x-trace", "1")]⟩
      = .ok ⟨[("id", "7")], [("authorization", "Bearer t"),
        ("content-type", "application/json"), ("x-trace", "1")]⟩ ∧
    ∃ e, validateHeaders ⟨[("id", "7")], [("authorization", "Bearer t")]⟩ = .error e ∧
      e.type = .headers ∧ e.error.name = "ValidationError" ∧
      e.error.message = "\"content-type\" is required" :=
  ⟨headers_only_content_type.1 _ (by decide), headers_only_content_type.2.1 _ (by decide)⟩

/-! ## The validation chain (C9) -/

theorem validateParams_ok_eq (req r : Request) (h : validateParams req = .ok r) : r = req := by
  unfold validateParams at h
  split at h
  · simp only [Except.ok.injEq] at h; exact h.symm
  · simp at h

theorem validateHeaders_ok_eq (req r : Request) (h : validateHeaders req = .ok r) : r = req := by
  unfold validateHeaders at h
  split at h
  · simp only [Except.ok.injEq] at h; exact h.symm
  · simp at h

theorem runChain_complete (req : Request) :
    runChain completeValidator req =
      match validateParams req with
      | .error e => .error e
      | .ok _ => validateHeaders req := by
  unfold completeValidator
  simp only [runChain]
  cases hp : validateParams req with
  | error e => rfl
  | ok r =>
    have hr := validateParams_ok_eq req r hp
    subst hr
    simp only
    cases hh : validateHeaders r with
    | error e => rfl
    | ok r' =>
      simp only

/-- C9: the exported chain lets a request through exactly when the parameter
validator and the header validator both accept it, and then hands on the
request itself; when the parameter validator rejects, its error is the
chain's error whatever the headers are; when only the header validator
rejects, its error is the chain's; and on an error of the chain the later
stage does not run: the response is the error handler's, whatever the later
stage is. For the id `IdNonValido` without a `content-type` header the error
holds the id message alone. -/
theorem chain_short_circuits :
    (∀ req : Request, (∃ r, runChain completeValidator req = .ok r) ↔
      ((∃ r, validateParams req = .ok r) ∧ (∃ r, validateHeaders req = .ok r))) ∧
    (∀ req r : Request, runChain completeValidator req = .ok r → r = req) ∧
    (∀ (req : Request) (e : MiddlewareError), validateParams req = .error e →
      runChain completeValidator req = .error e) ∧
    (∀ (req r : Request) (e : MiddlewareError), validateParams req = .ok r →
      validateHeaders req = .error e → runChain completeValidator req = .error e) ∧
    (∀ (req : Request) (e : MiddlewareError), runChain completeValidator req = .error e →
      ∀ (ρ : Type) (later : Request → ρ) (onError : MiddlewareError → ρ),
        handle later onError req = onError e) ∧
    (∀ headers : List (String × String),
      runChain completeValidator ⟨[("id", "IdNonValido")], headers⟩ =
        .error ⟨.params, ⟨[msgPattern "id" "IdNonValido" idPattern]⟩⟩) := by
  refine ⟨?_, ?_, ?_, ?_, ?_, ?_⟩
  · intro req
    rw [runChain_complete]
    cases hp : validateParams req with
    | error e => simp
    | ok r => simp
  · intro req r h
    rw [runChain_complete] at h
    cases hp : validateParams req with
    | error e => rw [hp] at h; simp at h
    | ok r' =>
      rw [hp] at h
      exact validateHeaders_ok_eq req r h
  · intro req e h
    rw [runChain_complete, h]
  · intro req r e hp hh
    rw [runChain_complete, hp]
    exact hh
  · intro req e h ρ later onError
    unfold handle
    rw [h]
  · intro headers
    rw [runChain_complete]
    rfl

/-- C9 (witness): the id `IdNonValido` with no `content-type` header: the
parameter validator's error is the chain's error and the error handler
answers. -/
theorem chain_short_circuits_witness :
    runChain completeValidator ⟨[("id", "IdNonValido")], []⟩ =
      .error ⟨.params, ⟨["\"id\" with value \"IdNonValido\" fails to match the required pattern: /^(?!0+[1-9]+)\\d+$/"]⟩⟩ ∧
    handle (fun _ => "archived") (fun e => e.error.toString) ⟨[("id", "IdNonValido")], []⟩ =
      "ValidationError: \"id\" with value \"IdNonValido\" fails to match the required pattern: /^(?!0+[1-9]+)\\d+$/" :=
  ⟨chain_short_circuits.2.2.1 ⟨[("id", "IdNonValido")], []⟩ _ rfl,
   chain_short_circuits.2.2.2.2.1 ⟨[("id", "IdNonValido")], []⟩
     ⟨.params, ⟨[msgPattern "id" "IdNonValido" idPattern]⟩⟩ rfl String
     (fun _ => "archived") (fun e => e.error.toString)⟩

/-! ## The store and the archive operation: lemmas -/

theorem findById_update_self (st : Store) (id : String) (s : Status) (a : Activity)
    (h : findById st id = some a) :
    findById (update st id s) id = some { a with status := s } := by
  induction st with
  | nil => simp [findById] at h
  | cons b rest ih =>
    unfold findById at h ih ⊢
    by_cases hb : (b.id == id) = true
    · simp only [List.find?_cons, hb, Option.some.injEq] at h
      subst h
      simp [update, hb, List.find?_cons]
    · simp only [Bool.not_eq_true] at hb
      simp only [List.find?_cons, hb] at h
      simp only [update, hb, Bool.false_eq_true, if_false, List.find?_cons]
      exact ih h

theorem findById_update_other (st : Store) (id id' : String) (s : Status) (h : id' ≠ id) :
    findById (update st id s) id' = findById st id' := by
  induction st with
  | nil => rfl
  | cons b rest ih =>
    unfold findById at ih ⊢
    by_cases hb : (b.id == id) = true
    · have hb' : (b.id == id') = false := by
        have : b.id = id := by simpa using hb
        simp [this, Ne.symm h]
      simp [update, hb, List.find?_cons, hb']
    · simp only [Bool.not_eq_true] at hb
      simp only [update, hb, Bool.false_eq_true, if_false, List.find?_cons, ih]

theorem update_length (st : Store) (id : String) (s : Status) :
    (update st id s).length = st.length := by
  induction st with
  | nil => rfl
  | cons b rest ih =>
    by_cases hb : (b.id == id) = true
    · simp [update, hb]
    · simp only [Bool.not_eq_true] at hb
      simp [update, hb, ih]

theorem update_getElem_other (st : Store) (id : String) (s : Status) (i : Nat) (b : Activity)
    (hi : st[i]? = some b) (hb : b.id ≠ id) : (update st id s)[i]? = some b := by
  induction st generalizing i with
  | nil => simp at hi
  | cons c rest ih =>
    by_cases hc : (c.id == id) = true
    · cases i with
      | zero =>
        simp only [List.getElem?_cons_zero, Option.some.injEq] at hi
        subst hi
        exact absurd (by simpa using hc) hb
      | succ j =>
        simp only [update, hc, if_true, List.getElem?_cons_succ] at hi ⊢
        exact hi
    · simp only [Bool.not_eq_true] at hc
      cases i with
      | zero => simpa [update, hc] using hi
      | succ j =>
        simp only [update, hc, Bool.false_eq_true, if_false, List.getElem?_cons_succ] at hi ⊢
        exact ih j hi

theorem update_getElem_fields (st : Store) (id : String) (s : Status) (i : Nat) (b : Activity)
    (hi : st[i]? = some b) :
    ∃ b', (update st id s)[i]? = some b' ∧ b'.id = b.id ∧ b'.name = b.name ∧
      b'.description = b.description ∧ b'.ownerId = b.ownerId := by
  induction st generalizing i with
  | nil => simp at hi
  | cons c rest ih =>
    by_cases hc : (c.id == id) = true
    · cases i with
      | zero =>
        simp only [List.getElem?_cons_zero, Option.some.injEq] at hi
        subst hi
        exact ⟨{ c with status := s }, by simp [update, hc], rfl, rfl, rfl, rfl⟩
      | succ j =>
        simp only [List.getElem?_cons_succ] at hi
        exact ⟨b, by simp [update, hc, hi], rfl, rfl, rfl, rfl⟩
    · simp only [Bool.not_eq_true] at hc
      cases i with
      | zero =>
        simp only [List.getElem?_cons_zero, Option.some.injEq] at hi
        subst hi
        exact ⟨c, by simp [update, hc], rfl, rfl, rfl, rfl⟩
      | succ j =>
        simp only [List.getElem?_cons_succ] at hi
        obtain ⟨b', h1, h2⟩ := ih j hi
        exact ⟨b', by simpa [update, hc] using h1, h2⟩

/-- The outcome of `archive` on a `completed` activity. -/
theorem archive_of_completed (st : Store) (u id : String) (a : Activity)
    (hf : findById st id = some a) (hs : a.status = .completed) :
    archive st u id = (update st id .archived, .ok { a with status := .archived }.view) := by
  unfold archive
  rw [hf]
  simp only [hs]

/-- The outcome of `archive` on an `archived` activity. -/
theorem archive_of_archived (st : Store) (u id : String) (a : Activity)
    (hf : findById st id = some a) (hs : a.status = .archived) :
    archive st u id = (st, .ok a.view) := by
  unfold archive
  rw [hf]
  simp only [hs]

/-- The outcome of `archive` on an `open` activity. -/
theorem archive_of_open (st : Store) (u id : String) (a : Activity)
    (hf : findById st id = some a) (hs : a.status = .open_) :
    archive st u id
      = (st, .error (.forbidden "Can not archive a not completed activity")) := by
  unfold archive
  rw [hf]
  simp only [hs]

/-- The outcome of `archive` on a `deleted` activity. -/
theorem archive_of_deleted (st : Store) (u id : String) (a : Activity)
    (hf : findById st id = some a) (hs : a.status = .deleted) :
    archive st u id = (st, .error (.forbidden "Can not archive a deleted activity")) := by
  unfold archive
  rw [hf]
  simp only [hs]

/-- The outcome of `archive` on an id that is not in the store. -/
theorem archive_of_absent (st : Store) (u id : String) (hf : findById st id = none) :
    archive st u id = (st, .error (.notFound "Activity not found" 200100)) := by
  unfold archive
  rw [hf]

/-- A successful `archive` found an activity in state `completed` or
`archived`. -/
theorem archive_ok_inv (st st' : Store) (u id : String) (v : ActivityView)
    (h : archive st u id = (st', .ok v)) :
    ∃ a, findById st id = some a ∧
      ((a.status = .completed ∧ st' = update st id .archived ∧
          v = { a with status := .archived }.view) ∨
       (a.status = .archived ∧ st' = st ∧ v = a.view)) := by
  cases hf : findById st id with
  | none => rw [archive_of_absent st u id hf] at h; simp at h
  | some a =>
    refine ⟨a, rfl, ?_⟩
    cases hs : a.status with
    | open_ => rw [archive_of_open st u id a hf hs] at h; simp at h
    | deleted => rw [archive_of_deleted st u id a hf hs] at h; simp at h
    | completed =>
      rw [archive_of_completed st u id a hf hs] at h
      simp only [Prod.mk.injEq, Except.ok.injEq] at h
      exact Or.inl ⟨rfl, h.1.symm, h.2.symm⟩
    | archived =>
      rw [archive_of_archived st u id a hf hs] at h
      simp only [Prod.mk.injEq, Except.ok.injEq] at h
      exact Or.inr ⟨rfl, h.1.symm, h.2.symm⟩

/-! ## The archive operation (C1, C2, C3, C4) -/

/-- C1: for every store, every user and every activity id whose stored
activity has status `completed`, `archive` succeeds, the returned view has
status `archived`, and a lookup of the id in the resulting store yields an
activity with status `archived`. -/
theorem archive_completed_succeeds (st : Store) (u id : String) (a : Activity)
    (hf : findById st id = some a) (hs : a.status = .completed) :
    ∃ v, (archive st u id).2 = .ok v ∧ v.status = .archived ∧
      ∃ a', findById (archive st u id).1 id = some a' ∧ a'.status = .archived := by
  rw [archive_of_completed st u id a hf hs]
  exact ⟨_, rfl, rfl, _, findById_update_self st id .archived a hf, rfl⟩

/-- C1 (witness): the `completed` activity `a1` of a store of two is archived. -/
theorem archive_completed_succeeds_witness :
    ∃ v, (archive [⟨"a0", "x", "y", .open_, "u1"⟩, ⟨"a1", "shop", "milk", .completed, "u1"⟩]
        "u1" "a1").2 = .ok v ∧ v.status = .archived ∧
      ∃ a', findById (archive [⟨"a0", "x", "y", .open_, "u1"⟩,
        ⟨"a1", "shop", "milk", .completed, "u1"⟩] "u1" "a1").1 "a1" = some a' ∧
        a'.status = .archived :=
  archive_completed_succeeds _ "u1" "a1" ⟨"a1", "shop", "milk", .completed, "u1"⟩
    (by decide) rfl

/-- C2: `archive` fails in exactly three cases and with exactly these errors:
NotFound with message `Activity not found` and code 200100 when no activity
with the id exists in the store, Forbidden with message
`Can not archive a not completed activity` when the activity's status is
`open`, Forbidden with message `Can not archive a deleted activity` when it is
`deleted`; on every such failure the store is returned as it was. For every
existing activity with status `completed` or `archived` it succeeds, and a
failure with an error `e` occurs only in one of the three cases, with the
error of that case. -/
theorem archive_outcomes (st : Store) (u id : String) :
    (findById st id = none →
      archive st u id = (st, .error (.notFound "Activity not found" 200100))) ∧
    (∀ a, findById st id = some a →
      (a.status = .open_ →
        archive st u id = (st, .error (.forbidden "Can not archive a not completed activity"))) ∧
      (a.status = .deleted →
        archive st u id = (st, .error (.forbidden "Can not archive a deleted activity"))) ∧
      (a.status = .completed ∨ a.status = .archived →
        ∃ v, (archive st u id).2 = .ok v)) ∧
    (∀ e, (archive st u id).2 = .error e ↔
      ((findById st id = none ∧ e = .notFound "Activity not found" 200100) ∨
       (∃ a, findById st id = some a ∧ a.status = .open_ ∧
          e = .forbidden "Can not archive a not completed activity") ∨
       (∃ a, findById st id = some a ∧ a.status = .deleted ∧
          e = .forbidden "Can not archive a deleted activity"))) := by
  refine ⟨archive_of_absent st u id, ?_, ?_⟩
  · intro a hf
    refine ⟨archive_of_open st u id a hf, archive_of_deleted st u id a hf, ?_⟩
    rintro (hs | hs)
    · rw [archive_of_completed st u id a hf hs]
      exact ⟨_, rfl⟩
    · rw [archive_of_archived st u id a hf hs]
      exact ⟨_, rfl⟩
  · intro e
    cases hf : findById st id with
    | none =>
      rw [archive_of_absent st u id hf]
      simp only [Except.error.injEq, true_and, reduceCtorEq, false_and, exists_false, or_false]
      exact eq_comm
    | some a =>
      cases hs : a.status with
      | open_ =>
        rw [archive_of_open st u id a hf hs]
        simp only [Except.error.injEq, reduceCtorEq, false_and, Option.some.injEq, false_or]
        constructor
        · intro h
          exact Or.inl ⟨a, rfl, hs, h.symm⟩
        · rintro (⟨b, _, _, h⟩ | ⟨b, hb, hd, _⟩)
          · exact h.symm
          · subst hb
            rw [hs] at hd
            exact Status.noConfusion hd
      | deleted =>
        rw [archive_of_deleted st u id a hf hs]
        simp only [Except.error.injEq, reduceCtorEq, false_and, Option.some.injEq, false_or]
        constructor
        · intro h
          exact Or.inr ⟨a, rfl, hs, h.symm⟩
        · rintro (⟨b, hb, hd, _⟩ | ⟨b, _, _, h⟩)
          · subst hb
            rw [hs] at hd
            exact Status.noConfusion hd
          · exact h.symm
      | completed =>
        rw [archive_of_completed st u id a hf hs]
        simp only [reduceCtorEq, false_and, Option.some.injEq, false_or, false_iff, not_or,
          not_exists, not_and]
        refine ⟨fun b hb hd => ?_, fun b hb hd => ?_⟩ <;>
        · subst hb
          rw [hs] at hd
          exact Status.noConfusion hd
      | archived =>
        rw [archive_of_archived st u id a hf hs]
        simp only [reduceCtorEq, false_and, Option.some.injEq, false_or, false_iff, not_or,
          not_exists, not_and]
        refine ⟨fun b hb hd => ?_, fun b hb hd => ?_⟩ <;>
        · subst hb
          rw [hs] at hd
          exact Status.noConfusion hd

/-- C2 (witness): in a store with an `open`, a `deleted` and a `completed`
activity, the four outcomes, and the case behind a Forbidden failure. -/
theorem archive_outcomes_witness :
    archive [⟨"o", "n1", "d1", .open_, "ann"⟩, ⟨"d", "n2", "d2", .deleted, "ann"⟩,
        ⟨"c", "n3", "d3", .completed, "ann"⟩] "ann" "zz"
      = ([⟨"o", "n1", "d1", .open_, "ann"⟩, ⟨"d", "n2", "d2", .deleted, "ann"⟩,
        ⟨"c", "n3", "d3", .completed, "ann"⟩],
        .error (.notFound "Activity not found" 200100)) ∧
    archive [⟨"o", "n1", "d1", .open_, "ann"⟩, ⟨"d", "n2", "d2", .deleted, "ann"⟩,
        ⟨"c", "n3", "d3", .completed, "ann"⟩] "ann" "o"
      = ([⟨"o", "n1", "d1", .open_, "ann"⟩, ⟨"d", "n2", "d2", .deleted, "ann"⟩,
        ⟨"c", "n3", "d3", .completed, "ann"⟩],
        .error (.forbidden "Can not archive a not completed activity")) ∧
    archive [⟨"o", "n1", "d1", .open_, "ann"⟩, ⟨"d", "n2", "d2", .deleted, "ann"⟩,
        ⟨"c", "n3", "d3", .completed, "ann"⟩] "ann" "d"
      = ([⟨"o", "n1", "d1", .open_, "ann"⟩, ⟨"d", "n2", "d2", .deleted, "ann"⟩,
        ⟨"c", "n3", "d3", .completed, "ann"⟩],
        .error (.forbidden "Can not archive a deleted activity")) ∧
    (∃ v, (archive [⟨"o", "n1", "d1", .open_, "ann"⟩, ⟨"d", "n2", "d2", .deleted, "ann"⟩,
        ⟨"c", "n3", "d3", .completed, "ann"⟩] "ann" "c").2 = .ok v) ∧
    ((findById [⟨"d", "n2", "d2", .deleted, "ann"⟩] "d" = none ∧
        ArchiveError.forbidden "Can not archive a deleted activity"
          = .notFound "Activity not found" 200100) ∨
      (∃ a, findById [⟨"d", "n2", "d2", .deleted, "ann"⟩] "d" = some a ∧ a.status = .open_ ∧
        ArchiveError.forbidden "Can not archive a deleted activity"
          = .forbidden "Can not archive a not completed activity") ∨
      (∃ a, findById [⟨"d", "n2", "d2", .deleted, "ann"⟩] "d" = some a ∧ a.status = .deleted ∧
        ArchiveError.forbidden "Can not archive a deleted activity"
          = .forbidden "Can not archive a deleted activity")) :=
  ⟨(archive_outcomes _ "ann" "zz").1 (by decide),
   ((archive_outcomes _ "ann" "o").2.1 ⟨"o", "n1", "d1", .open_, "ann"⟩ (by decide)).1 rfl,
   ((archive_outcomes _ "ann" "d").2.1 ⟨"d", "n2", "d2", .deleted, "ann"⟩ (by decide)).2.1 rfl,
   ((archive_outcomes _ "ann" "c").2.1 ⟨"c", "n3", "d3", .completed, "ann"⟩ (by decide)).2.2
     (Or.inl rfl),
   ((archive_outcomes [⟨"d", "n2", "d2", .deleted, "ann"⟩] "ann" "d").2.2
     (.forbidden "Can not archive a deleted activity")).mp rfl⟩

/-- C3: `archive` is idempotent: for every store and id on which `archive`
succeeds, the returned view has status `archived` and calling `archive` again
on the resulting store succeeds, returns the same view and leaves the store as
it was after the first call; in particular archiving an activity that is
already `archived` succeeds, returns its view with status `archived` and does
not change the store. -/
theorem archive_idempotent :
    (∀ (st st' : Store) (u id : String) (v : ActivityView),
      archive st u id = (st', .ok v) →
        v.status = .archived ∧ archive st' u id = (st', .ok v)) ∧
    (∀ (st : Store) (u id : String) (a : Activity),
      findById st id = some a → a.status = .archived →
        archive st u id = (st, .ok a.view) ∧ a.view.status = .archived) := by
  refine ⟨?_, fun st u id a hf hs => ⟨archive_of_archived st u id a hf hs, hs⟩⟩
  intro st st' u id v h
  obtain ⟨a, hf, ⟨hs, hst, hv⟩ | ⟨hs, hst, hv⟩⟩ := archive_ok_inv st st' u id v h
  · subst hst hv
    refine ⟨rfl, ?_⟩
    exact archive_of_archived _ u id { a with status := .archived }
      (findById_update_self st id .archived a hf) rfl
  · subst hst hv
    refine ⟨hs, ?_⟩
    exact archive_of_archived _ u id a hf hs

/-- C3 (witness): a `completed` activity is archived twice, and an `archived`
activity is archived. -/
theorem archive_idempotent_witness :
    ((⟨"a1", "shop", "milk", .archived⟩ : ActivityView).status = .archived ∧
      archive [⟨"a1", "shop", "milk", .archived, "u1"⟩] "u1" "a1"
        = ([⟨"a1", "shop", "milk", .archived, "u1"⟩], .ok ⟨"a1", "shop", "milk", .archived⟩)) ∧
    (archive [⟨"k2", "read", "ch. 4", .archived, "eve"⟩] "eve" "k2"
      = ([⟨"k2", "read", "ch. 4", .archived, "eve"⟩],
        .ok (Activity.view ⟨"k2", "read", "ch. 4", .archived, "eve"⟩)) ∧
      (Activity.view ⟨"k2", "read", "ch. 4", .archived, "eve"⟩).status = .archived) :=
  ⟨archive_idempotent.1 [⟨"a1", "shop", "milk", .completed, "u1"⟩]
      [⟨"a1", "shop", "milk", .archived, "u1"⟩] "u1" "a1" ⟨"a1", "shop", "milk", .archived⟩ rfl,
   archive_idempotent.2 [⟨"k2", "read", "ch. 4", .archived, "eve"⟩] "eve" "k2"
      ⟨"k2", "read", "ch. 4", .archived, "eve"⟩ (by decide) rfl⟩

/-- C4: `archive` changes nothing but the status of the targeted activity: on
a success the view's id, name and description are the stored ones, the
targeted record keeps every field but the status, every record with another
id is unchanged at its place, no record is added or removed and lookups of
other ids are unchanged; on a failure the store is unchanged. -/
theorem archive_frame :
    (∀ (st st' : Store) (u id : String) (v : ActivityView),
      archive st u id = (st', .ok v) →
        (∃ a, findById st id = some a ∧ v.id = a.id ∧ v.name = a.name ∧
          v.description = a.description ∧
          findById st' id = some { a with status := .archived }) ∧
        st'.length = st.length ∧
        (∀ (i : Nat) (b : Activity), st[i]? = some b → b.id ≠ id → st'[i]? = some b) ∧
        (∀ (i : Nat) (b : Activity), st[i]? = some b →
          ∃ b', st'[i]? = some b' ∧ b'.id = b.id ∧ b'.name = b.name ∧
            b'.description = b.description ∧ b'.ownerId = b.ownerId) ∧
        (∀ id' : String, id' ≠ id → findById st' id' = findById st id')) ∧
    (∀ (st : Store) (u id : String) (e : ArchiveError),
      (archive st u id).2 = .error e → (archive st u id).1 = st) := by
  refine ⟨?_, ?_⟩
  · intro st st' u id v h
    obtain ⟨a, hf, ⟨hs, hst, hv⟩ | ⟨hs, hst, hv⟩⟩ := archive_ok_inv st st' u id v h
    · subst hst hv
      exact ⟨⟨a, hf, rfl, rfl, rfl, findById_update_self st id .archived a hf⟩,
        update_length st id .archived,
        fun i b hi hb => update_getElem_other st id .archived i b hi hb,
        fun i b hi => update_getElem_fields st id .archived i b hi,
        fun id' hne => findById_update_other st id id' .archived hne⟩
    · subst hst hv
      refine ⟨⟨a, hf, rfl, rfl, rfl, ?_⟩, rfl, fun i b hi _ => hi,
        fun i b hi => ⟨b, hi, rfl, rfl, rfl, rfl⟩, fun _ _ => rfl⟩
      rw [hf, ← hs]
  · intro st u id e h
    cases hf : findById st id with
    | none => rw [archive_of_absent st u id hf]
    | some a =>
      cases hs : a.status with
      | open_ => rw [archive_of_open st u id a hf hs]
      | deleted => rw [archive_of_deleted st u id a hf hs]
      | completed => rw [archive_of_completed st u id a hf hs] at h; simp at h
      | archived => rw [archive_of_archived st u id a hf hs]

/-- C4 (witness): `a1` is archived in a store of two activities, and a call
for an unknown id leaves the store as it was. -/
theorem archive_frame_witness :
    ((∃ a, findById [⟨"a0", "x", "y", .open_, "u1"⟩, ⟨"a1", "shop", "milk", .completed, "u1"⟩] "a1"
          = some a ∧ "a1" = a.id ∧ "shop" = a.name ∧ "milk" = a.description ∧
        findById [⟨"a0", "x", "y", .open_, "u1"⟩, ⟨"a1", "shop", "milk", .archived, "u1"⟩] "a1"
          = some { a with status := .archived }) ∧
      [(⟨"a0", "x", "y", .open_, "u1"⟩ : Activity), ⟨"a1", "shop", "milk", .archived, "u1"⟩].length
        = [(⟨"a0", "x", "y", .open_, "u1"⟩ : Activity),
            ⟨"a1", "shop", "milk", .completed, "u1"⟩].length) ∧
    (archive [⟨"a0", "x", "y", .open_, "u1"⟩] "u1" "nope").1 = [⟨"a0", "x", "y", .open_, "u1"⟩] :=
  ⟨⟨(archive_frame.1 [⟨"a0", "x", "y", .open_, "u1"⟩, ⟨"a1", "shop", "milk", .completed, "u1"⟩]
      [⟨"a0", "x", "y", .open_, "u1"⟩, ⟨"a1", "shop", "milk", .archived, "u1"⟩] "u1" "a1"
      ⟨"a1", "shop", "milk", .archived⟩ rfl).1,
    (archive_frame.1 [⟨"a0", "x", "y", .open_, "u1"⟩, ⟨"a1", "shop", "milk", .completed, "u1"⟩]
      [⟨"a0", "x", "y", .open_, "u1"⟩, ⟨"a1", "shop", "milk", .archived, "u1"⟩] "u1" "a1"
      ⟨"a1", "shop", "milk", .archived⟩ rfl).2.1⟩,
   archive_frame.2 [⟨"a0", "x", "y", .open_, "u1"⟩] "u1" "nope"
     (.notFound "Activity not found" 200100) rfl⟩

end ToDoList
